import Mathlib

/-!
Verification of the pycistarget motif-enrichment module
(`motif_enrichment_cistarget.py`).

The development shallowly embeds the two entry points of the source file:

* `cisTargetDatabase.load_db` — loading a cisTarget ranking database and
  reconciling query regions with the database region vocabulary, including
  the optional `<prefix>__` namespace handling (`loadDb` below);
* `cisTarget.run_ctx` — the motif-enrichment pipeline: AUC and NES
  computation, enrichment selection, recovery-curve reference, leading-edge
  extraction, motif-hit projection and cistrome assembly (`runCtx` below).

External collaborators (the `ctxcore` statistical kernel `calc_aucs` /
`recovery` / `leading_edge4row`, the annotation joiner and the cistrome
builder of `MotifEnrichmentResult`, and the `pycistarget.utils` region
mapper `target_to_query`) are kept abstract: they enter as function
parameters, exactly at the call sites the source gives them, so theorems
can speak about which arguments the pipeline hands to them.

Floating-point values are modelled as real numbers.  The only place where
IEEE semantics is observable in the source is the z-score division when
the AUC standard deviation is zero: there NumPy produces NaN (`0.0/0.0`)
and NaN compares `False` against every threshold.  We model a NES entry as
`Option ℝ` with `none` for that NaN; since over the reals a zero standard
deviation forces a zero numerator as well, `none` is produced exactly when
NumPy produces NaN.
-/

namespace PyCistarget

/-! ### Data model -/

/-- One row of the query↔database region mapping (`regions_to_db`):
`target` is the query-set region key (column `Target`), `query` is the
database region key it mapped to (column `Query`). -/
structure MappingRow where
  target : String
  query : String
deriving DecidableEq, Repr

/-- The slice of a `cisTargetDatabase` object consumed by `run_ctx`:
the region mapping already resolved for the current analysis name
(source line 296–298 resolves it from a dict or by `.loc`), the motif
row index of `db_rankings`, the rank value of every motif at every
region column, and `total_regions`. -/
structure CisTargetDB where
  regionsToDb : List MappingRow
  dbMotifs : List String
  dbRanks : String → String → ℕ
  totalRegions : ℕ

/-- Per-run parameters of the `cisTarget` object used by `run_ctx`. -/
structure CtxConfig where
  name : String
  aucThreshold : ℝ
  nesThreshold : ℝ
  rankThreshold : ℝ
  motifsToUse : Option (List String)

/-- The external collaborators invoked by `run_ctx`, kept abstract:
`aucK` is `ctxcore.recovery.aucs` (matrix, total universe size, weights,
AUC threshold); `recK` is `ctxcore.recovery.recovery` with `no_auc=True`
(matrix, total universe size, weights, rank cutoff, AUC threshold),
returning one recovery curve per motif row; `leK` is
`ctxcore.recovery.leading_edge4row` (recovery-curve row, ranking row,
reference curve `avg2stdrcc`, region list, weights), returning the
leading-edge `(region, rank)` list and `Rank_at_max`; `cisK` is
`MotifEnrichmentResult.get_cistromes`, fed with the motif-hit index. -/
structure Kernels where
  aucK : List (String × List ℕ) → ℕ → List ℝ → ℝ → List ℝ
  recK : List (String × List ℕ) → ℕ → List ℝ → ℕ → ℝ → List (List ℝ)
  leK : List ℝ → List ℕ → List ℝ → List String → List ℝ → List (String × ℕ) × ℕ
  cisK : List (String × List (String × List String)) →
    List (String × List (String × List String))

/-! ### Basic helpers: first-occurrence de-duplication and statistics -/

/-- First-occurrence de-duplication with an accumulator of already seen
elements.  Models the order-preserving de-duplication performed by Python
dict/`GeneSignature` construction; for Python `set(...)` conversions
(whose iteration order is unspecified) it fixes the first-occurrence
order as the representative. -/
def dedupFAux {α : Type} [DecidableEq α] (seen : List α) : List α → List α
  | [] => []
  | a :: as => if a ∈ seen then dedupFAux seen as else a :: dedupFAux (a :: seen) as

/-- First-occurrence de-duplication. -/
def dedupF {α : Type} [DecidableEq α] (l : List α) : List α := dedupFAux [] l

/-- NumPy `mean` of a vector: sum divided by length. -/
noncomputable def mean (l : List ℝ) : ℝ := l.sum / l.length

/-- NumPy population variance (`ddof = 0`): mean of squared deviations. -/
noncomputable def popVariance (l : List ℝ) : ℝ := mean (l.map fun x => (x - mean l) ^ 2)

/-- NumPy `std` (`ddof = 0`): square root of the population variance. -/
noncomputable def std (l : List ℝ) : ℝ := Real.sqrt (popVariance l)

/-! ### The `run_ctx` pipeline, stage by stage

Each `def` below is the direct translation of one binding of
`cisTarget.run_ctx` (source lines 296–416). -/

/-- Source line 303–305: the region keys of the run, i.e. the `Query`
column of the resolved mapping turned into a `GeneSignature`
(de-duplicating, keeping first occurrences). -/
def runRegions (db : CisTargetDB) : List String :=
  dedupF (db.regionsToDb.map (·.query))

/-- Source lines 309–317: the motif rows considered.  When
`motifs_to_use` is given, the rows are restricted to the requested motifs
present in the database index (Python intersects two `set`s, whose
iteration order is unspecified; we fix the request-order first-occurrence
representative).  Otherwise all database motifs are used. -/
def runMotifs (db : CisTargetDB) (cfg : CtxConfig) : List String :=
  match cfg.motifsToUse with
  | none => db.dbMotifs
  | some ms => dedupF (ms.filter fun m => decide (m ∈ db.dbMotifs))

/-- Source lines 315–317: `db_rankings_regions`, the ranking matrix
subset to the considered motif rows and the run's region columns. -/
def runMatrix (db : CisTargetDB) (cfg : CtxConfig) : List (String × List ℕ) :=
  (runMotifs db cfg).map fun m => (m, (runRegions db).map (db.dbRanks m))

/-- Source line 320: the raw ranking rows (`rankings = ....values`). -/
def runRankings (db : CisTargetDB) (cfg : CtxConfig) : List (List ℕ) :=
  (runMatrix db cfg).map (·.2)

/-- Source line 321: `weights = np.ones(len(regions))`. -/
noncomputable def uniformWeights (db : CisTargetDB) : List ℝ :=
  List.replicate (runRegions db).length 1

/-- Source line 324: the per-motif AUC vector, obtained from the external
statistical kernel, passing `ctx_db.total_regions` as the universe size
and the uniform weights. -/
noncomputable def runAucs (K : Kernels) (db : CisTargetDB) (cfg : CtxConfig) : List ℝ :=
  K.aucK (runMatrix db cfg) db.totalRegions (uniformWeights db) cfg.aucThreshold

/-- Source line 325: `ness = (aucs - aucs.mean()) / aucs.std()`.
A `none` entry models the NaN NumPy produces when the standard deviation
is zero (then the numerator is zero as well, so `0.0/0.0 = NaN`). -/
noncomputable def runNess (K : Kernels) (db : CisTargetDB) (cfg : CtxConfig) :
    List (Option ℝ) :=
  (runAucs K db cfg).map fun a =>
    if std (runAucs K db cfg) = 0 then none
    else some ((a - mean (runAucs K db cfg)) / std (runAucs K db cfg))

/-- Elementwise `ness >= nes_threshold`; a NaN (`none`) compares `false`,
as in NumPy. -/
noncomputable def nesAtLeast (t : ℝ) : Option ℝ → Bool
  | none => false
  | some x => if t ≤ x then true else false

/-- Source line 328: `enriched_features_idx = ness >= self.nes_threshold`. -/
noncomputable def enrichedFlags (K : Kernels) (db : CisTargetDB) (cfg : CtxConfig) :
    List Bool :=
  (runNess K db cfg).map (nesAtLeast cfg.nesThreshold)

/-- Positions of the enriched motifs among the considered rows. -/
noncomputable def enrichedIdxs (K : Kernels) (db : CisTargetDB) (cfg : CtxConfig) :
    List ℕ :=
  (List.range (runMotifs db cfg).length).filter fun i =>
    (enrichedFlags K db cfg).getD i false

/-- Source line 372: the rank cutoff
`int(self.rank_threshold * ctx_db.total_regions)` (truncation of a
non-negative float, i.e. the floor). -/
noncomputable def rankCutoff (db : CisTargetDB) (cfg : CtxConfig) : ℕ :=
  ⌊cfg.rankThreshold * (db.totalRegions : ℝ)⌋₊

/-- Source line 372: the recovery curves of ALL considered motifs, from
the external kernel, again passing `total_regions` and uniform weights. -/
noncomputable def runRccs (K : Kernels) (db : CisTargetDB) (cfg : CtxConfig) :
    List (List ℝ) :=
  K.recK (runMatrix db cfg) db.totalRegions (uniformWeights db)
    (rankCutoff db cfg) cfg.aucThreshold

/-- Column `j` of the recovery-curve matrix (one value per considered
motif). -/
noncomputable def rccColumn (K : Kernels) (db : CisTargetDB) (cfg : CtxConfig)
    (j : ℕ) : List ℝ :=
  (runRccs K db cfg).map fun row => row.getD j 0

/-- Source lines 373–374: the population reference curve
`avg2stdrcc = rccs.mean(axis=0) + 2.0 * rccs.std(axis=0)`. -/
noncomputable def avg2stdrcc (K : Kernels) (db : CisTargetDB) (cfg : CtxConfig) :
    List ℝ :=
  (List.range (rankCutoff db cfg)).map fun j =>
    mean (rccColumn K db cfg j) + 2 * std (rccColumn K db cfg j)

/-- Source line 389: the weights handed to `leading_edge4row`, the
signature weight of every region.  `region_sets_to_signature` (repository
code outside the provided source file) builds the signature with weight
`1.0` per region, per the specification's uniform-weight contract. -/
noncomputable def signatureWeights (db : CisTargetDB) : List ℝ :=
  (runRegions db).map fun _ => 1

/-- One row of the intermediate enriched-features table (the `Enrichment`
column block of source lines 349–392). -/
structure EnrichedRow where
  motif : String
  nes : ℝ
  auc : ℝ
  group : String
  targetRegions : List (String × ℕ)
  rankAtMax : ℕ

/-- Source lines 349–391 for the motif at position `i` of the considered
rows: NES, AUC, the constant per-run group label, and the leading edge
computed by the external `leading_edge4row` on this motif's recovery
curve and raw ranking row against the population reference curve. -/
noncomputable def leRow (K : Kernels) (db : CisTargetDB) (cfg : CtxConfig)
    (i : ℕ) : EnrichedRow :=
  { motif := (runMotifs db cfg).getD i ""
    nes := ((runNess K db cfg).getD i none).getD 0
    auc := (runAucs K db cfg).getD i 0
    group := cfg.name
    targetRegions := (K.leK ((runRccs K db cfg).getD i [])
      ((runRankings db cfg).getD i []) (avg2stdrcc K db cfg)
      (runRegions db) (signatureWeights db)).1
    rankAtMax := (K.leK ((runRccs K db cfg).getD i [])
      ((runRankings db cfg).getD i []) (avg2stdrcc K db cfg)
      (runRegions db) (signatureWeights db)).2 }

/-- Source lines 349–391: the enriched-features table before sorting; one
row per enriched motif, in considered order (curves and ranking rows are
restricted to the enriched subset at lines 376–377, after the reference
curve has been taken over the full population). -/
noncomputable def enrichedRows (K : Kernels) (db : CisTargetDB) (cfg : CtxConfig) :
    List EnrichedRow :=
  (enrichedIdxs K db cfg).map (leRow K db cfg)

/-- Stable insertion into an ascending-sorted list: the new element goes
before the first element with a key not smaller than its own, so earlier
elements with an equal key stay in front. -/
noncomputable def insertAsc {α : Type} (key : α → ℝ) (a : α) : List α → List α
  | [] => [a]
  | b :: bs => if key a ≤ key b then a :: b :: bs else b :: insertAsc key a bs

/-- Stable ascending insertion sort. -/
noncomputable def sortAsc {α : Type} (key : α → ℝ) : List α → List α
  | [] => []
  | a :: as => insertAsc key a (sortAsc key as)

/-- pandas `sort_values(..., ascending=False)` semantics: pandas computes
an ascending argsort and reverses it (`nargsort`), so a descending sort is
the reverse of the ascending order — in particular equal keys end up in
reverse of their original relative order whenever the underlying argsort
is stable (NumPy's default sort is a stable insertion sort below 16
elements). -/
noncomputable def pandasSortDesc {α : Type} (key : α → ℝ) (l : List α) : List α :=
  (sortAsc key l).reverse

/-- Source line 395: `enriched_features.sort_values('NES', ascending=False)`. -/
noncomputable def sortedRows (K : Kernels) (db : CisTargetDB) (cfg : CtxConfig) :
    List EnrichedRow :=
  pandasSortDesc (·.nes) (enrichedRows K db cfg)

/-- Source line 406: `db_motif_hits`, the database-space hit list per
enriched motif — the first component of every leading-edge tuple — keyed
in final (NES-sorted) table order.  (The motif index is unique, per the
data-model invariant, so the Python dict keyed by index equals this
per-row list.) -/
noncomputable def dbMotifHits (K : Kernels) (db : CisTargetDB) (cfg : CtxConfig) :
    List (String × List String) :=
  (sortedRows K db cfg).map fun r => (r.motif, r.targetRegions.map (·.1))

/-- Source line 407: `rs_motif_hits`, the query-space hit list per
enriched motif: the de-duplicated `Target` values of the mapping rows
whose `Query` lies in the motif's database-space hit list. -/
noncomputable def rsMotifHits (K : Kernels) (db : CisTargetDB) (cfg : CtxConfig) :
    List (String × List String) :=
  (dbMotifHits K db cfg).map fun p =>
    (p.1, dedupF ((db.regionsToDb.filter fun row => decide (row.query ∈ p.2)).map
      (·.target)))

/-- One row of the final `motif_enrichment` table: columns
`Region_set`, `NES`, `AUC`, `Rank_at_max` (source line 396) plus the
`Motif_hits` count column added at source line 409.  The annotation
joiner (source line 401, external) only attaches additional columns and
is therefore invisible in this projection. -/
structure FinalRow where
  motif : String
  regionSet : String
  nes : ℝ
  auc : ℝ
  rankAtMax : ℕ
  motifHits : ℕ

/-- Source lines 394–409: the final enrichment table, NES-sorted, with
the `Motif_hits` count column equal to the length of each motif's
database-space hit list. -/
noncomputable def finalRows (K : Kernels) (db : CisTargetDB) (cfg : CtxConfig) :
    List FinalRow :=
  (sortedRows K db cfg).map fun r =>
    { motif := r.motif, regionSet := r.group, nes := r.nes, auc := r.auc,
      rankAtMax := r.rankAtMax, motifHits := r.targetRegions.length }

/-- The attributes `run_ctx` stores on the `cisTarget` object. -/
structure CtxResult where
  motifEnrichment : List FinalRow
  motifHits : List (String × List (String × List String))
  cistromes : List (String × List (String × List String))

/-- `cisTarget.run_ctx` (source lines 296–416).  If no motif reaches the
NES threshold (source lines 331–346) the run terminates in the
zero-enrichment state: empty table, and `motif_hits` / `cistromes` each a
dict with the two keys `Database` and `Region_set` mapped to empty dicts.
Otherwise the enriched table, hit index and cistromes are assembled. -/
noncomputable def runCtx (K : Kernels) (db : CisTargetDB) (cfg : CtxConfig) :
    CtxResult :=
  if (enrichedFlags K db cfg).count true = 0 then
    { motifEnrichment := []
      motifHits := [("Database", []), ("Region_set", [])]
      cistromes := [("Database", []), ("Region_set", [])] }
  else
    { motifEnrichment := finalRows K db cfg
      motifHits := [("Database", dbMotifHits K db cfg),
                    ("Region_set", rsMotifHits K db cfg)]
      cistromes := K.cisK [("Database", dbMotifHits K db cfg),
                           ("Region_set", rsMotifHits K db cfg)] }

/-! ### The `load_db` entry point

`cisTargetDatabase.load_db` (source lines 60–134).  The feather database
handle (`FeatherRankingDatabase`) and the region mapper
(`pycistarget.utils.target_to_query`) are external collaborators and stay
abstract; `load_db`'s own logic — the runtime type dispatch on
`region_sets`, the `<prefix>__` namespace stripping/restoring, and the
assembly of the returned triple — is embedded directly. -/

/-- The runtime type of the `region_sets` argument: a dict of PyRanges,
a single PyRanges, or some other Python value (`other` carries the name
of its type, interpolated into the error message). -/
inductive RegionSetsArg (P : Type) where
  | dict : List (String × P) → RegionSetsArg P
  | ranges : P → RegionSetsArg P
  | other : String → RegionSetsArg P

/-- The region mapping returned by `load_db`: a per-name dict of mapping
tables (dict input) or a single table (PyRanges input). -/
inductive MappingResult where
  | named : List (String × List MappingRow) → MappingResult
  | flat : List MappingRow → MappingResult

/-- A motif×region rank matrix with an explicit column index, as returned
by the database handle's `load` operation. -/
structure RankMatrix where
  cols : List String
  rows : List (String × List ℕ)

/-- Python `s.split('__')`, character by character: greedy left-to-right
split on the two-underscore separator. -/
def splitUUAux : List Char → List Char → List (List Char)
  | [], acc => [acc.reverse]
  | '_' :: '_' :: rest, acc => acc.reverse :: splitUUAux rest []
  | c :: rest, acc => splitUUAux rest (c :: acc)

/-- Python `s.split('__')` on a string. -/
def pySplitUU (s : String) : List String :=
  (splitUUAux s.data []).map String.mk

/-- Python `'__' in s`: the split has at least two parts. -/
def pyContainsUU (s : String) : Bool := 2 ≤ (pySplitUU s).length

/-- Python `s.split('__')[0]`. -/
def part0 (s : String) : String := (pySplitUU s).getD 0 ""

/-- Python `s.split('__')[1]`.  (Python raises `IndexError` when there is
no separator; that case is outside every use site's precondition and is
mapped to `""`.) -/
def part1 (s : String) : String := (pySplitUU s).getD 1 ""

/-- Source lines 108–111: namespace-prefix detection.  If the first
database region key contains `'__'`, its first segment becomes the
prefix and every key is replaced by its second segment. -/
def stripPrefixInfo (dbGenes : List String) : Option String × List String :=
  if pyContainsUU (dbGenes.getD 0 "") then
    (some (part0 (dbGenes.getD 0 "")), dbGenes.map part1)
  else (none, dbGenes)

/-- Source lines 123–129: after the mapping, the de-duplicated mapped
query keys get the prefix re-applied (line 124–125), the database is
loaded on those keys, and when a prefix is present the columns of the
loaded matrix are stripped back (line 128–129). -/
def finishLoad (dbLoad : List String → RankMatrix) (pfx : Option String)
    (queries : List String) : RankMatrix :=
  let qs := match pfx with
    | some p => queries.map fun x => p ++ "__" ++ x
    | none => queries
  let rk := dbLoad qs
  match pfx with
  | some _ => { cols := rk.cols.map part1, rows := rk.rows }
  | none => rk

/-- `cisTargetDatabase.load_db` (source lines 60–134).  Parameters:
`t2q` is `pycistarget.utils.target_to_query` (external: query PyRanges,
database vocabulary, fraction overlap); `dbLoad` / `loadFull` are the
database handle's `load` / `load_full`; `dbGenes` and `totalRegions`
come from the handle.  Returns the mapping (or `none` when no region
sets were given), the loaded rank matrix and the total region count; on
a `region_sets` value of any other runtime type it raises
`ValueError` (source line 122) before the database load. -/
def loadDb {P : Type} (t2q : P → List String → ℝ → List MappingRow)
    (dbLoad : List String → RankMatrix) (loadFull : Unit → RankMatrix)
    (dbGenes : List String) (totalRegions : ℕ)
    (regionSets : Option (RegionSetsArg P)) (fractionOverlap : ℝ) :
    Except String (Option MappingResult × RankMatrix × ℕ) :=
  let pinfo := stripPrefixInfo dbGenes
  let pfx := pinfo.1
  let dbRegions := pinfo.2
  match regionSets with
  | some (.dict d) =>
      let mapping := d.map fun p => (p.1, t2q p.2 dbRegions fractionOverlap)
      let queries := dedupF ((mapping.map fun p => p.2.map (·.query)).flatten)
      .ok (some (.named mapping), finishLoad dbLoad pfx queries, totalRegions)
  | some (.ranges r) =>
      let t := t2q r dbRegions fractionOverlap
      let queries := dedupF (t.map (·.query))
      .ok (some (.flat t), finishLoad dbLoad pfx queries, totalRegions)
  | some (.other ty) =>
      .error ("region_sets should be either a dict of PyRanges objects or a single PyRanges object, not " ++ ty)
  | none =>
      .ok (none, loadFull (), totalRegions)

/-! ### Concrete instances used to exercise the pipeline -/

/-- A small database slice: three mapping rows over two database regions,
four motifs, universe size 100. -/
def dbW : CisTargetDB :=
  { regionsToDb := [⟨"A", "q1"⟩, ⟨"B", "q2"⟩, ⟨"C", "q1"⟩]
    dbMotifs := ["m1", "m2", "m3", "m4"]
    dbRanks := fun _ _ => 7
    totalRegions := 100 }

/-- A run configuration with NES threshold 1. -/
noncomputable def cfgW : CtxConfig :=
  { name := "runW", aucThreshold := 1 / 200, nesThreshold := 1,
    rankThreshold := 1 / 50, motifsToUse := none }

/-- Kernels whose AUC vector is `[0, 0, 2, 2]` (mean 1, population
standard deviation 1, hence NES `[-1, -1, 1, 1]`). -/
noncomputable def KW : Kernels :=
  { aucK := fun _ _ _ _ => [0, 0, 2, 2]
    recK := fun _ _ _ _ _ => [[1], [1], [1], [1]]
    leK := fun _ _ _ _ _ => ([("q1", 5)], 5)
    cisK := fun l => l }

/-- Kernels agreeing with `KW` whenever the universe argument is 100 and
differing everywhere else. -/
noncomputable def KW2 : Kernels :=
  { aucK := fun m t w a => if t = 100 then KW.aucK m t w a else [9, 9, 9, 9]
    recK := fun m t w c a => if t = 100 then KW.recK m t w c a else []
    leK := KW.leK
    cisK := KW.cisK }

/-- Kernels returning a constant AUC vector (zero standard deviation). -/
noncomputable def Kconst : Kernels :=
  { aucK := fun _ _ _ _ => [5, 5, 5, 5]
    recK := fun _ _ _ _ _ => []
    leK := fun _ _ _ _ _ => ([], 0)
    cisK := fun _ => [] }

/-- A database slice whose resolved region mapping is empty: no query
region overlapped any database region. -/
def emptyMapDb : CisTargetDB :=
  { regionsToDb := []
    dbMotifs := ["m1", "m2"]
    dbRanks := fun _ _ => 0
    totalRegions := 100 }

/-- Run configuration for the empty-mapping run. -/
noncomputable def cfgC3 : CtxConfig :=
  { name := "empty", aucThreshold := 1 / 200, nesThreshold := 1,
    rankThreshold := 1 / 50, motifsToUse := none }

/-- AUC kernel bundle that answers `[0, 2]` on zero-width matrices (every
row an empty column list) and `[0, 0]` on every matrix with at least one
non-empty row. -/
noncomputable def KzeroA : Kernels :=
  { aucK := fun m _ _ _ => if m.all (fun r => r.2.isEmpty) then [0, 2] else [0, 0]
    recK := fun _ _ _ _ _ => []
    leK := fun _ _ _ _ _ => ([], 0)
    cisK := fun _ => [] }

/-- AUC kernel bundle that answers `[0, 0]` on every matrix.  It agrees
with `KzeroA` on every matrix having a non-empty row, i.e. the two
bundles differ only on zero-width input. -/
noncomputable def KzeroB : Kernels :=
  { aucK := fun _ _ _ _ => [0, 0]
    recK := fun _ _ _ _ _ => []
    leK := fun _ _ _ _ _ => ([], 0)
    cisK := fun _ => [] }

/-- Default row used when indexing enrichment tables. -/
def dummyRow : FinalRow :=
  { motif := "", regionSet := "", nes := 0, auc := 0, rankAtMax := 0, motifHits := 0 }

/-- The tie-breaking property claimed by the specification for the final
enrichment table: among rows with equal NES, the one whose motif occurs
earlier in the original (pre-sort) motif order comes first. -/
def tiesInOriginalOrderSpec (original : List String) (rows : List FinalRow) : Prop :=
  ∀ i j, i < j → j < rows.length →
    (rows.getD i dummyRow).nes = (rows.getD j dummyRow).nes →
    original.indexOf ((rows.getD i dummyRow).motif) <
      original.indexOf ((rows.getD j dummyRow).motif)

/-- A concrete region mapper for exercising `load_db`: maps every
database vocabulary region `v` to a query region `Tv`. -/
def t2qC : Unit → List String → ℝ → List MappingRow :=
  fun _ vocab _ => vocab.map fun v => ⟨"T" ++ v, v⟩

/-- A concrete database `load`: the returned matrix's columns are exactly
the requested keys. -/
def dbLoadC : List String → RankMatrix := fun keys => { cols := keys, rows := [] }

/-- A concrete `load_full`. -/
def loadFullC : Unit → RankMatrix := fun _ => { cols := [], rows := [] }

/-- Database region keys carrying the namespace prefix `pre`. -/
def dbGenesC : List String := ["pre__a", "pre__b"]

/-- Kernels sharing `Kconst`'s AUC kernel but with different recovery,
leading-edge and cistrome collaborators. -/
noncomputable def KconstB : Kernels :=
  { aucK := Kconst.aucK
    recK := fun _ _ _ _ _ => [[42]]
    leK := fun _ _ _ _ _ => ([("z", 1)], 9)
    cisK := fun _ => [("other", [])] }

/-! ### General lemmas -/

lemma getD_map {α β : Type} (f : α → β) (l : List α) (i : ℕ) (d : β) (d0 : α)
    (h : i < l.length) : (l.map f).getD i d = f (l.getD i d0) := by
  rw [List.getD_eq_getElem _ _ (by simpa using h), List.getD_eq_getElem _ _ h]
  simp

lemma mem_dedupFAux {α : Type} [DecidableEq α] (x : α) (l : List α) :
    ∀ seen : List α, x ∈ dedupFAux seen l ↔ x ∈ l ∧ x ∉ seen := by
  induction l with
  | nil => intro seen; simp [dedupFAux]
  | cons a as ih =>
    intro seen
    rw [dedupFAux]
    by_cases ha : a ∈ seen
    · rw [if_pos ha, ih seen]
      constructor
      · rintro ⟨hx, hs⟩; exact ⟨List.mem_cons_of_mem _ hx, hs⟩
      · rintro ⟨hx, hs⟩
        rcases List.mem_cons.mp hx with rfl | hx
        · exact absurd ha hs
        · exact ⟨hx, hs⟩
    · rw [if_neg ha]
      rcases eq_or_ne x a with rfl | hxa
      · simp [ha]
      · rw [List.mem_cons, ih (a :: seen)]
        simp [hxa]

lemma mem_dedupF {α : Type} [DecidableEq α] (x : α) (l : List α) :
    x ∈ dedupF l ↔ x ∈ l := by
  rw [dedupF, mem_dedupFAux]
  simp

lemma nodup_dedupFAux {α : Type} [DecidableEq α] (l : List α) :
    ∀ seen : List α, (dedupFAux seen l).Nodup := by
  induction l with
  | nil => intro seen; simp [dedupFAux]
  | cons a as ih =>
    intro seen
    rw [dedupFAux]
    by_cases ha : a ∈ seen
    · rw [if_pos ha]; exact ih seen
    · rw [if_neg ha]
      refine List.nodup_cons.mpr ⟨fun hmem => ?_, ih (a :: seen)⟩
      exact ((mem_dedupFAux a as (a :: seen)).mp hmem).2 (List.mem_cons_self a seen)

lemma nodup_dedupF {α : Type} [DecidableEq α] (l : List α) : (dedupF l).Nodup :=
  nodup_dedupFAux l []

lemma perm_insertAsc {α : Type} (key : α → ℝ) (a : α) (l : List α) :
    (insertAsc key a l).Perm (a :: l) := by
  induction l with
  | nil => rfl
  | cons b bs ih =>
    rw [insertAsc]
    by_cases hab : key a ≤ key b
    · rw [if_pos hab]
    · rw [if_neg hab]
      exact (ih.cons b).trans (List.Perm.swap a b bs)

lemma perm_sortAsc {α : Type} (key : α → ℝ) (l : List α) :
    (sortAsc key l).Perm l := by
  induction l with
  | nil => rfl
  | cons a as ih =>
    rw [sortAsc]
    exact (perm_insertAsc key a (sortAsc key as)).trans (ih.cons a)

lemma sorted_insertAsc {α : Type} (key : α → ℝ) (a : α) (l : List α)
    (h : l.Sorted (fun x y => key x ≤ key y)) :
    (insertAsc key a l).Sorted (fun x y => key x ≤ key y) := by
  induction l with
  | nil => simp [insertAsc]
  | cons b bs ih =>
    rw [insertAsc]
    rcases List.sorted_cons.mp h with ⟨hb, hbs⟩
    by_cases hab : key a ≤ key b
    · rw [if_pos hab]
      refine List.sorted_cons.mpr ⟨?_, h⟩
      intro x hx
      rcases List.mem_cons.mp hx with rfl | hx
      · exact hab
      · exact hab.trans (hb x hx)
    · rw [if_neg hab]
      refine List.sorted_cons.mpr ⟨?_, ih hbs⟩
      intro x hx
      rcases (perm_insertAsc key a bs).mem_iff.mp hx with hxm
      rcases List.mem_cons.mp hxm with rfl | hx2
      · exact le_of_not_le hab
      · exact hb x hx2

lemma sorted_sortAsc {α : Type} (key : α → ℝ) (l : List α) :
    (sortAsc key l).Sorted (fun x y => key x ≤ key y) := by
  induction l with
  | nil => simp [sortAsc]
  | cons a as ih => exact sorted_insertAsc key a _ ih

lemma sorted_pandasSortDesc {α : Type} (key : α → ℝ) (l : List α) :
    (pandasSortDesc key l).Sorted (fun x y => key y ≤ key x) := by
  rw [pandasSortDesc, List.Sorted, List.pairwise_reverse]
  exact sorted_sortAsc key l

lemma perm_pandasSortDesc {α : Type} (key : α → ℝ) (l : List α) :
    (pandasSortDesc key l).Perm l :=
  (List.reverse_perm _).trans (perm_sortAsc key l)

lemma mean_of_const (l : List ℝ) (c : ℝ) (h : ∀ x ∈ l, x = c) (hne : l ≠ []) :
    mean l = c := by
  have hsum : l.sum = c * l.length := by
    induction l with
    | nil => simp
    | cons a as ih =>
      simp only [List.sum_cons, List.length_cons]
      rcases as with - | ⟨b, bs⟩
      · simp [h a (by simp)]
      · rw [ih (fun x hx => h x (by simp [hx])) (by simp)]
        rw [h a (by simp)]
        push_cast
        ring
  have hn : (l.length : ℝ) ≠ 0 := by
    have := List.length_pos.mpr hne
    positivity
  rw [mean, hsum]
  field_simp

lemma std_of_const (l : List ℝ) (c : ℝ) (h : ∀ x ∈ l, x = c) : std l = 0 := by
  rcases eq_or_ne l [] with rfl | hne
  · simp [std, popVariance, mean]
  · have hm : mean l = c := mean_of_const l c h hne
    have hzero : ∀ y ∈ l.map (fun x => (x - mean l) ^ 2), y = 0 := by
      intro y hy
      rcases List.mem_map.mp hy with ⟨x, hx, rfl⟩
      rw [h x hx, hm]
      ring
    have hmapne : l.map (fun x => (x - mean l) ^ 2) ≠ [] := by
      simpa using hne
    rw [std, popVariance, mean_of_const _ 0 hzero hmapne]
    exact Real.sqrt_zero

lemma runCtx_of_no_enriched (K : Kernels) (db : CisTargetDB) (cfg : CtxConfig)
    (h : (enrichedFlags K db cfg).count true = 0) :
    runCtx K db cfg =
      { motifEnrichment := []
        motifHits := [("Database", []), ("Region_set", [])]
        cistromes := [("Database", []), ("Region_set", [])] } := by
  rw [runCtx, if_pos h]

lemma enrichedFlags_congr (K K2 : Kernels) (db : CisTargetDB) (cfg : CtxConfig)
    (h : runAucs K2 db cfg = runAucs K db cfg) :
    enrichedFlags K2 db cfg = enrichedFlags K db cfg := by
  rw [enrichedFlags, enrichedFlags, runNess, runNess, h]

/-! ### Evaluation of the concrete instances -/

lemma runAucsW : runAucs KW dbW cfgW = [0, 0, 2, 2] := rfl

lemma meanW : mean [0, 0, 2, 2] = 1 := by
  simp [mean]
  norm_num

lemma popVarianceW : popVariance [0, 0, 2, 2] = 1 := by
  rw [popVariance]
  simp only [meanW]
  norm_num [mean]

lemma stdW : std [0, 0, 2, 2] = 1 := by
  rw [std, popVarianceW, Real.sqrt_one]

lemma nessW : runNess KW dbW cfgW = [some (-1), some (-1), some 1, some 1] := by
  rw [runNess]
  simp only [runAucsW, stdW, meanW]
  norm_num

lemma flagsW : enrichedFlags KW dbW cfgW = [false, false, true, true] := by
  rw [enrichedFlags, nessW]
  simp only [List.map_cons, List.map_nil, nesAtLeast]
  norm_num [cfgW]

lemma countW : (enrichedFlags KW dbW cfgW).count true = 2 := by
  rw [flagsW]
  decide

lemma countW_ne : (enrichedFlags KW dbW cfgW).count true ≠ 0 := by
  rw [countW]
  decide

lemma enrichedIdxsW : enrichedIdxs KW dbW cfgW = [2, 3] := by
  rw [enrichedIdxs]
  simp only [flagsW]
  decide

lemma runMotifsW : runMotifs dbW cfgW = ["m1", "m2", "m3", "m4"] := rfl

lemma leRow2W : leRow KW dbW cfgW 2 =
    { motif := "m3", nes := 1, auc := 2, group := "runW",
      targetRegions := [("q1", 5)], rankAtMax := 5 } := by
  rw [leRow]
  simp only [nessW, runAucsW, runMotifsW]
  simp [KW, cfgW, List.getD]

lemma leRow3W : leRow KW dbW cfgW 3 =
    { motif := "m4", nes := 1, auc := 2, group := "runW",
      targetRegions := [("q1", 5)], rankAtMax := 5 } := by
  rw [leRow]
  simp only [nessW, runAucsW, runMotifsW]
  simp [KW, cfgW, List.getD]

lemma sortedRowsW : sortedRows KW dbW cfgW =
    [{ motif := "m4", nes := 1, auc := 2, group := "runW",
       targetRegions := [("q1", 5)], rankAtMax := 5 },
     { motif := "m3", nes := 1, auc := 2, group := "runW",
       targetRegions := [("q1", 5)], rankAtMax := 5 }] := by
  rw [sortedRows, enrichedRows, enrichedIdxsW]
  simp only [List.map_cons, List.map_nil, leRow2W, leRow3W]
  rw [pandasSortDesc, sortAsc, sortAsc, sortAsc, insertAsc, insertAsc]
  norm_num

lemma menrichW : (runCtx KW dbW cfgW).motifEnrichment =
    [{ motif := "m4", regionSet := "runW", nes := 1, auc := 2,
       rankAtMax := 5, motifHits := 1 },
     { motif := "m3", regionSet := "runW", nes := 1, auc := 2,
       rankAtMax := 5, motifHits := 1 }] := by
  rw [runCtx, if_neg countW_ne]
  show finalRows KW dbW cfgW = _
  rw [finalRows, sortedRowsW]
  simp

lemma runAucsConst : runAucs Kconst dbW cfgW = [5, 5, 5, 5] := rfl

lemma runAucsConst_all : ∀ x ∈ runAucs Kconst dbW cfgW, x = (5 : ℝ) := by
  rw [runAucsConst]
  intro x hx
  simp only [List.mem_cons, List.not_mem_nil, or_false] at hx
  rcases hx with rfl | rfl | rfl | rfl <;> rfl

lemma countConst : (enrichedFlags Kconst dbW cfgW).count true = 0 := by
  have hs : std (runAucs Kconst dbW cfgW) = 0 :=
    std_of_const _ 5 runAucsConst_all
  rw [List.count_eq_zero]
  intro hmem
  rw [enrichedFlags] at hmem
  rcases List.mem_map.mp hmem with ⟨o, ho, hoeq⟩
  rw [runNess] at ho
  rcases List.mem_map.mp ho with ⟨a, _, haeq⟩
  rw [if_pos hs] at haeq
  rw [← haeq] at hoeq
  exact Bool.noConfusion hoeq

/-! ### Claims -/

/-- C1: in `run_ctx`, over the full motif set considered (after
restriction to `motifs_to_use`, before enrichment filtering), the NES of
every motif equals `(AUC - mean(AUCs)) / std(AUCs)` over that whole set,
and a motif is flagged enriched exactly when its NES is greater than or
equal to `nes_threshold` (inclusive comparison).  The hypothesis rules
out the degenerate zero-standard-deviation vector, where NumPy produces
NaN instead of the quotient (settled separately as the C8 boundary). -/
theorem claim_C1_nes_zscore_and_threshold (K : Kernels) (db : CisTargetDB)
    (cfg : CtxConfig) (h : std (runAucs K db cfg) ≠ 0) :
    (∀ i, i < (runAucs K db cfg).length →
      (runNess K db cfg).getD i none =
        some (((runAucs K db cfg).getD i 0 - mean (runAucs K db cfg)) /
          std (runAucs K db cfg))) ∧
    ∀ i, i < (runAucs K db cfg).length →
      ((enrichedFlags K db cfg).getD i false = true ↔
        cfg.nesThreshold ≤
          ((runAucs K db cfg).getD i 0 - mean (runAucs K db cfg)) /
            std (runAucs K db cfg)) := by
  constructor
  · intro i hi
    rw [runNess, getD_map _ _ i none 0 hi, if_neg h]
  · intro i hi
    have hlen : i < (runNess K db cfg).length := by
      rw [runNess, List.length_map]; exact hi
    rw [enrichedFlags, getD_map _ _ i false none hlen]
    rw [runNess, getD_map _ _ i none 0 hi, if_neg h]
    by_cases hc : cfg.nesThreshold ≤
        ((runAucs K db cfg).getD i 0 - mean (runAucs K db cfg)) /
          std (runAucs K db cfg) <;>
      simp [nesAtLeast, hc]

/-- Witness for C1 at a concrete input: the AUC vector `[0, 0, 2, 2]` has
standard deviation 1 and the stated NES and threshold facts hold at
motif position 3. -/
theorem claim_C1_witness :
    std (runAucs KW dbW cfgW) ≠ 0 ∧
    (runNess KW dbW cfgW).getD 3 none =
      some (((runAucs KW dbW cfgW).getD 3 0 - mean (runAucs KW dbW cfgW)) /
        std (runAucs KW dbW cfgW)) ∧
    ((enrichedFlags KW dbW cfgW).getD 3 false = true ↔
      cfgW.nesThreshold ≤
        ((runAucs KW dbW cfgW).getD 3 0 - mean (runAucs KW dbW cfgW)) /
          std (runAucs KW dbW cfgW)) := by
  have h : std (runAucs KW dbW cfgW) ≠ 0 := by
    rw [runAucsW, stdW]; norm_num
  have hlen : 3 < (runAucs KW dbW cfgW).length := by
    rw [runAucsW]; norm_num
  exact ⟨h, (claim_C1_nes_zscore_and_threshold KW dbW cfgW h).1 3 hlen,
    (claim_C1_nes_zscore_and_threshold KW dbW cfgW h).2 3 hlen⟩

/-- C2: if no motif reaches the NES threshold, `run_ctx` terminates in
the zero-enrichment state — empty enrichment table, `motif_hits` and
`cistromes` each a dict with both `Database` and `Region_set` keys
mapped to empty dicts — and it returns before any recovery-curve,
leading-edge, annotation, or cistrome computation: the conclusion holds
for EVERY kernel bundle sharing the same AUC kernel, i.e. the recovery,
leading-edge and cistrome collaborators are never consulted. -/
theorem claim_C2_zero_enrichment_terminal (K : Kernels) (db : CisTargetDB)
    (cfg : CtxConfig) (h : (enrichedFlags K db cfg).count true = 0) :
    ∀ K2 : Kernels, K2.aucK = K.aucK →
      runCtx K2 db cfg =
        { motifEnrichment := []
          motifHits := [("Database", []), ("Region_set", [])]
          cistromes := [("Database", []), ("Region_set", [])] } := by
  intro K2 hK
  have haucs : runAucs K2 db cfg = runAucs K db cfg := by
    rw [runAucs, runAucs, hK]
  refine runCtx_of_no_enriched K2 db cfg ?_
  rw [enrichedFlags_congr K K2 db cfg haucs]
  exact h

/-- Witness for C2: with a constant AUC kernel nothing is enriched, and
the run with a kernel bundle whose recovery/leading-edge/cistrome
collaborators differ arbitrarily still lands in the exact zero state. -/
theorem claim_C2_witness :
    (enrichedFlags Kconst dbW cfgW).count true = 0 ∧
    runCtx KconstB dbW cfgW =
      { motifEnrichment := []
        motifHits := [("Database", []), ("Region_set", [])]
        cistromes := [("Database", []), ("Region_set", [])] } :=
  ⟨countConst, claim_C2_zero_enrichment_terminal Kconst dbW cfgW countConst KconstB rfl⟩

/-- C8: for a constant AUC vector the NES computation does not blow up:
the standard deviation is zero, every NES entry is the NaN (`none`) that
compares below every threshold, every motif is flagged non-enriched, and
the run terminates in the zero-enrichment state — for every threshold. -/
theorem claim_C8_constant_auc_terminal (K : Kernels) (db : CisTargetDB)
    (cfg : CtxConfig) (c : ℝ) (h : ∀ x ∈ runAucs K db cfg, x = c) :
    runCtx K db cfg =
      { motifEnrichment := []
        motifHits := [("Database", []), ("Region_set", [])]
        cistromes := [("Database", []), ("Region_set", [])] } := by
  have hs : std (runAucs K db cfg) = 0 := std_of_const _ c h
  refine runCtx_of_no_enriched K db cfg ?_
  rw [List.count_eq_zero]
  intro hmem
  rw [enrichedFlags] at hmem
  rcases List.mem_map.mp hmem with ⟨o, ho, hoeq⟩
  rw [runNess] at ho
  rcases List.mem_map.mp ho with ⟨a, _, haeq⟩
  rw [if_pos hs] at haeq
  rw [← haeq] at hoeq
  exact Bool.noConfusion hoeq

/-- Witness for C8: the constant AUC vector `[5, 5, 5, 5]` drives the run
into the zero-enrichment state. -/
theorem claim_C8_witness :
    runCtx Kconst dbW cfgW =
      { motifEnrichment := []
        motifHits := [("Database", []), ("Region_set", [])]
        cistromes := [("Database", []), ("Region_set", [])] } :=
  claim_C8_constant_auc_terminal Kconst dbW cfgW 5 runAucsConst_all

/-- C5: both statistical-kernel invocations made by `run_ctx` — the AUC
computation and the recovery-curve computation — receive
`ctx_db.total_regions` (the full database universe size) as the
normalization universe, together with the uniform per-region weight
vector of 1.0: two kernel bundles that agree merely at that universe and
weight vector (and share the leading-edge and cistrome collaborators)
produce identical runs, so the pipeline never consults the kernels at
any other universe or weight vector — in particular not at the
region-subset width. -/
theorem claim_C5_kernel_arguments (K K2 : Kernels) (db : CisTargetDB)
    (cfg : CtxConfig)
    (ha : ∀ m a, K.aucK m db.totalRegions (uniformWeights db) a =
                 K2.aucK m db.totalRegions (uniformWeights db) a)
    (hr : ∀ m c a, K.recK m db.totalRegions (uniformWeights db) c a =
                   K2.recK m db.totalRegions (uniformWeights db) c a)
    (hl : K.leK = K2.leK) (hc : K.cisK = K2.cisK) :
    runCtx K db cfg = runCtx K2 db cfg := by
  have h1 : runAucs K db cfg = runAucs K2 db cfg := ha _ _
  have h2 : runNess K db cfg = runNess K2 db cfg := by
    rw [runNess, runNess, h1]
  have h3 : enrichedFlags K db cfg = enrichedFlags K2 db cfg := by
    rw [enrichedFlags, enrichedFlags, h2]
  have h4 : runRccs K db cfg = runRccs K2 db cfg := hr _ _ _
  have h5 : avg2stdrcc K db cfg = avg2stdrcc K2 db cfg := by
    unfold avg2stdrcc rccColumn
    simp only [h4]
  have h6 : leRow K db cfg = leRow K2 db cfg := by
    funext i
    rw [leRow, leRow, h1, h2, h4, h5, hl]
  have h7 : enrichedRows K db cfg = enrichedRows K2 db cfg := by
    rw [enrichedRows, enrichedRows, h6]
    unfold enrichedIdxs
    simp only [h3]
  have h8 : sortedRows K db cfg = sortedRows K2 db cfg := by
    rw [sortedRows, sortedRows, h7]
  have h9 : dbMotifHits K db cfg = dbMotifHits K2 db cfg := by
    rw [dbMotifHits, dbMotifHits, h8]
  have h10 : rsMotifHits K db cfg = rsMotifHits K2 db cfg := by
    rw [rsMotifHits, rsMotifHits, h9]
  have h11 : finalRows K db cfg = finalRows K2 db cfg := by
    rw [finalRows, finalRows, h8]
  rw [runCtx, runCtx, h3, h9, h10, h11, hc]

/-- Witness for C5: `KW2` agrees with `KW` only when handed universe
size 100 (the full database size of `dbW`) and differs everywhere else,
yet the two runs coincide. -/
theorem claim_C5_witness : runCtx KW dbW cfgW = runCtx KW2 dbW cfgW :=
  claim_C5_kernel_arguments KW KW2 dbW cfgW
    (fun m a => by simp [KW2, dbW])
    (fun m c a => by simp [KW2, dbW])
    rfl rfl

lemma runAucsC3A : runAucs KzeroA emptyMapDb cfgC3 = [0, 2] := rfl

lemma meanC3 : mean [0, 2] = 1 := by
  norm_num [mean]

lemma popVarianceC3 : popVariance [0, 2] = 1 := by
  rw [popVariance]
  simp only [meanC3]
  norm_num [mean]

lemma stdC3 : std [0, 2] = 1 := by
  rw [std, popVarianceC3, Real.sqrt_one]

lemma flagsC3A : enrichedFlags KzeroA emptyMapDb cfgC3 = [false, true] := by
  rw [enrichedFlags, runNess]
  simp only [runAucsC3A, stdC3, meanC3]
  simp only [List.map_cons, List.map_nil, nesAtLeast]
  norm_num [cfgC3]

lemma countC3A_ne : (enrichedFlags KzeroA emptyMapDb cfgC3).count true ≠ 0 := by
  rw [flagsC3A]
  decide

lemma enrichedIdxsC3 : enrichedIdxs KzeroA emptyMapDb cfgC3 = [1] := by
  rw [enrichedIdxs]
  simp only [flagsC3A]
  decide

lemma runAucsC3B_all : ∀ x ∈ runAucs KzeroB emptyMapDb cfgC3, x = (0 : ℝ) := by
  intro x hx
  rw [show runAucs KzeroB emptyMapDb cfgC3 = [0, 0] from rfl] at hx
  simp only [List.mem_cons, List.not_mem_nil, or_false] at hx
  rcases hx with rfl | rfl <;> rfl

/-- C3 divergence demonstration.  The claim asserts that with an empty
region mapping the zero-width matrix is GUARDED before the statistical
kernel is invoked, and that the run resolves to the zero-enrichment
state.  In the code no such guard exists: with `emptyMapDb` (whose
resolved mapping is empty, so the subset matrix has two motif rows and
zero region columns) the result of `run_ctx` still depends on what the
AUC kernel answers on that zero-width matrix.  `KzeroA` and `KzeroB`
agree on every matrix having a non-empty row — they differ only at
zero-width input — yet they drive the run to different outcomes, so the
kernel IS invoked on the zero-width matrix.  (The real collaborators,
`ctxcore`'s `GeneSignature` and `aucs`, assert on empty signatures /
zero weight sums, so the actual run raises instead of reaching the
zero-enrichment state.) -/
theorem claim_C3_kernel_invoked_on_zero_width :
    runRegions emptyMapDb = [] ∧
    runMatrix emptyMapDb cfgC3 = [("m1", []), ("m2", [])] ∧
    (∀ m t w a, (∃ r ∈ m, r.2 ≠ []) →
      KzeroA.aucK m t w a = KzeroB.aucK m t w a) ∧
    runCtx KzeroA emptyMapDb cfgC3 ≠ runCtx KzeroB emptyMapDb cfgC3 := by
  refine ⟨rfl, rfl, ?_, ?_⟩
  · rintro m t w a ⟨r, hrm, hrne⟩
    show (if m.all fun p => p.2.isEmpty then [0, 2] else [0, 0]) = [0, 0]
    rw [if_neg]
    intro hall
    rw [List.all_eq_true] at hall
    have := hall r hrm
    rw [List.isEmpty_iff] at this
    exact hrne this
  · intro heq
    have hB : runCtx KzeroB emptyMapDb cfgC3 =
        { motifEnrichment := []
          motifHits := [("Database", []), ("Region_set", [])]
          cistromes := [("Database", []), ("Region_set", [])] } :=
      claim_C8_constant_auc_terminal KzeroB emptyMapDb cfgC3 0 runAucsC3B_all
    have hA : (runCtx KzeroA emptyMapDb cfgC3).motifEnrichment.length = 1 := by
      rw [runCtx, if_neg countC3A_ne]
      show (finalRows KzeroA emptyMapDb cfgC3).length = 1
      rw [finalRows, List.length_map, sortedRows, pandasSortDesc,
        List.length_reverse, (perm_sortAsc _ _).length_eq, enrichedRows,
        List.length_map, enrichedIdxsC3]
      rfl
    rw [heq, hB] at hA
    exact absurd hA (by decide)

/-- Witness for C3: the kernel agreement hypothesis discharged at a
concrete non-zero-width matrix, together with the run divergence. -/
theorem claim_C3_witness :
    KzeroA.aucK [("x", [0])] 1 [] 1 = KzeroB.aucK [("x", [0])] 1 [] 1 ∧
    runCtx KzeroA emptyMapDb cfgC3 ≠ runCtx KzeroB emptyMapDb cfgC3 :=
  ⟨claim_C3_kernel_invoked_on_zero_width.2.2.1 [("x", [0])] 1 [] 1
      ⟨("x", [0]), by simp, by simp⟩,
    claim_C3_kernel_invoked_on_zero_width.2.2.2⟩

/-- C4: once at least one motif is enriched, `run_ctx` hands the
recovery-curve kernel the FULL considered matrix (one row per considered
motif, enriched or not) with the rank cutoff
`floor(rank_threshold * total_regions)`; the reference curve
`avg2stdrcc` has exactly that many ranks and equals, at every rank, the
per-rank mean of the full-population curves plus two per-rank standard
deviations; and the rows that feed leading-edge extraction are exactly
the enriched subset, each evaluated against that population reference
curve on its own full-matrix recovery-curve and ranking rows. -/
theorem claim_C4_recovery_population_reference (K : Kernels)
    (db : CisTargetDB) (cfg : CtxConfig)
    (h : (enrichedFlags K db cfg).count true ≠ 0) :
    runRccs K db cfg = K.recK (runMatrix db cfg) db.totalRegions
      (uniformWeights db) ⌊cfg.rankThreshold * (db.totalRegions : ℝ)⌋₊
      cfg.aucThreshold ∧
    (runMatrix db cfg).map Prod.fst = runMotifs db cfg ∧
    (avg2stdrcc K db cfg).length =
      ⌊cfg.rankThreshold * (db.totalRegions : ℝ)⌋₊ ∧
    (∀ j, j < ⌊cfg.rankThreshold * (db.totalRegions : ℝ)⌋₊ →
      (avg2stdrcc K db cfg).getD j 0 =
        mean ((runRccs K db cfg).map fun row => row.getD j 0) +
          2 * std ((runRccs K db cfg).map fun row => row.getD j 0)) ∧
    (runCtx K db cfg).motifEnrichment.length = (enrichedIdxs K db cfg).length ∧
    ∀ r ∈ (runCtx K db cfg).motifEnrichment, ∃ i,
      i < (runMotifs db cfg).length ∧
      (enrichedFlags K db cfg).getD i false = true ∧
      r.motif = (runMotifs db cfg).getD i "" ∧
      r.rankAtMax = (K.leK ((runRccs K db cfg).getD i [])
        ((runRankings db cfg).getD i []) (avg2stdrcc K db cfg)
        (runRegions db) (signatureWeights db)).2 ∧
      r.motifHits = (K.leK ((runRccs K db cfg).getD i [])
        ((runRankings db cfg).getD i []) (avg2stdrcc K db cfg)
        (runRegions db) (signatureWeights db)).1.length := by
  refine ⟨rfl, ?_, ?_, ?_, ?_, ?_⟩
  · rw [runMatrix, List.map_map]
    show List.map (fun m => m) (runMotifs db cfg) = runMotifs db cfg
    simp
  · simp [avg2stdrcc, rankCutoff]
  · intro j hj
    have hj2 : j < (List.range (rankCutoff db cfg)).length := by
      simpa [rankCutoff] using hj
    rw [avg2stdrcc, getD_map _ _ j 0 0 hj2]
    rw [List.getD_eq_getElem _ _ hj2, List.getElem_range]
    rfl
  · rw [runCtx, if_neg h]
    show (finalRows K db cfg).length = _
    rw [finalRows, List.length_map, sortedRows, pandasSortDesc,
      List.length_reverse, (perm_sortAsc _ _).length_eq, enrichedRows,
      List.length_map]
  · intro r hr
    have hr2 : r ∈ finalRows K db cfg := by
      rw [runCtx, if_neg h] at hr
      exact hr
    rw [finalRows] at hr2
    rcases List.mem_map.mp hr2 with ⟨s2, hs2, rfl⟩
    have hs3 : s2 ∈ enrichedRows K db cfg := by
      rw [sortedRows] at hs2
      exact (perm_pandasSortDesc _ _).mem_iff.mp hs2
    rw [enrichedRows] at hs3
    rcases List.mem_map.mp hs3 with ⟨i, hi, rfl⟩
    rw [enrichedIdxs] at hi
    rcases List.mem_filter.mp hi with ⟨hir, hif⟩
    exact ⟨i, List.mem_range.mp hir, hif, rfl, rfl, rfl⟩

/-- Witness for C4 at a concrete input with two enriched motifs. -/
theorem claim_C4_witness :
    (enrichedFlags KW dbW cfgW).count true ≠ 0 ∧
    runRccs KW dbW cfgW = KW.recK (runMatrix dbW cfgW) dbW.totalRegions
      (uniformWeights dbW) ⌊cfgW.rankThreshold * (dbW.totalRegions : ℝ)⌋₊
      cfgW.aucThreshold ∧
    (avg2stdrcc KW dbW cfgW).length =
      ⌊cfgW.rankThreshold * (dbW.totalRegions : ℝ)⌋₊ ∧
    (runCtx KW dbW cfgW).motifEnrichment.length =
      (enrichedIdxs KW dbW cfgW).length :=
  ⟨countW_ne,
    (claim_C4_recovery_population_reference KW dbW cfgW countW_ne).1,
    (claim_C4_recovery_population_reference KW dbW cfgW countW_ne).2.2.1,
    (claim_C4_recovery_population_reference KW dbW cfgW countW_ne).2.2.2.2.1⟩

/-- C6: for every enriched motif (in final table order), the
`Region_set`-space entry of `motif_hits` holds exactly the de-duplicated
`Target` values of the mapping rows whose `Query` lies in that motif's
`Database`-space hit list — hence every `Region_set`-space hit projects
through the mapping into the `Database`-space hit list — and the
`Motif_hits` count column of `motif_enrichment` equals the length of the
`Database`-space hit list, row by row. -/
theorem claim_C6_motif_hits_projection (K : Kernels) (db : CisTargetDB)
    (cfg : CtxConfig) (h : (enrichedFlags K db cfg).count true ≠ 0) :
    (runCtx K db cfg).motifHits =
      [("Database", dbMotifHits K db cfg),
       ("Region_set", rsMotifHits K db cfg)] ∧
    (rsMotifHits K db cfg).length = (dbMotifHits K db cfg).length ∧
    (∀ j, j < (dbMotifHits K db cfg).length →
      ((rsMotifHits K db cfg).getD j ("", [])).1 =
        ((dbMotifHits K db cfg).getD j ("", [])).1 ∧
      ((rsMotifHits K db cfg).getD j ("", [])).2.Nodup ∧
      ∀ t, t ∈ ((rsMotifHits K db cfg).getD j ("", [])).2 ↔
        ∃ row ∈ db.regionsToDb, row.target = t ∧
          row.query ∈ ((dbMotifHits K db cfg).getD j ("", [])).2) ∧
    ((runCtx K db cfg).motifEnrichment.map fun r => r.motifHits) =
      ((dbMotifHits K db cfg).map fun p => p.2.length) := by
  refine ⟨?_, ?_, ?_, ?_⟩
  · rw [runCtx, if_neg h]
  · rw [rsMotifHits, List.length_map]
  · intro j hj
    rw [rsMotifHits, getD_map _ _ j ("", []) ("", []) hj]
    refine ⟨rfl, nodup_dedupF _, ?_⟩
    intro t
    rw [mem_dedupF]
    constructor
    · intro ht
      rcases List.mem_map.mp ht with ⟨row, hrow, hteq⟩
      rcases List.mem_filter.mp hrow with ⟨hmem, hq⟩
      exact ⟨row, hmem, hteq, of_decide_eq_true hq⟩
    · rintro ⟨row, hmem, rfl, hq⟩
      exact List.mem_map.mpr
        ⟨row, List.mem_filter.mpr ⟨hmem, decide_eq_true hq⟩, rfl⟩
  · rw [runCtx, if_neg h]
    show ((finalRows K db cfg).map fun r => r.motifHits) = _
    rw [finalRows, dbMotifHits, List.map_map, List.map_map]
    refine List.map_congr_left ?_
    intro s _
    simp

/-- Witness for C6 at a concrete input with two enriched motifs. -/
theorem claim_C6_witness :
    (runCtx KW dbW cfgW).motifHits =
      [("Database", dbMotifHits KW dbW cfgW),
       ("Region_set", rsMotifHits KW dbW cfgW)] ∧
    (rsMotifHits KW dbW cfgW).length = (dbMotifHits KW dbW cfgW).length ∧
    ((rsMotifHits KW dbW cfgW).getD 0 ("", [])).1 =
      ((dbMotifHits KW dbW cfgW).getD 0 ("", [])).1 ∧
    ("A" ∈ ((rsMotifHits KW dbW cfgW).getD 0 ("", [])).2 ↔
      ∃ row ∈ dbW.regionsToDb, row.target = "A" ∧
        row.query ∈ ((dbMotifHits KW dbW cfgW).getD 0 ("", [])).2) := by
  have hlen : 0 < (dbMotifHits KW dbW cfgW).length := by
    rw [dbMotifHits, List.length_map, sortedRowsW]
    norm_num
  exact ⟨(claim_C6_motif_hits_projection KW dbW cfgW countW_ne).1,
    (claim_C6_motif_hits_projection KW dbW cfgW countW_ne).2.1,
    ((claim_C6_motif_hits_projection KW dbW cfgW countW_ne).2.2.1 0 hlen).1,
    ((claim_C6_motif_hits_projection KW dbW cfgW countW_ne).2.2.1 0 hlen).2.2 "A"⟩

/-- C7 counterexample.  The claim asserts the final table is sorted by
NES descending with a STABLE tie policy: motifs with equal NES appear in
their original (pre-sort) motif order.  The code sorts with pandas
`sort_values('NES', ascending=False)`, which reverses an ascending
argsort, so equal-NES motifs come out in REVERSE of their original
order: with the considered motif order `[m1, m2, m3, m4]` and the two
enriched motifs `m3`, `m4` carrying equal NES 1, the final table lists
`m4` before `m3`. -/
theorem claim_C7_counterexample :
    ¬ tiesInOriginalOrderSpec (runMotifs dbW cfgW)
        (runCtx KW dbW cfgW).motifEnrichment := by
  intro hcl
  have hlen : 1 < (runCtx KW dbW cfgW).motifEnrichment.length := by
    rw [menrichW]
    norm_num
  have hnes : ((runCtx KW dbW cfgW).motifEnrichment.getD 0 dummyRow).nes =
      ((runCtx KW dbW cfgW).motifEnrichment.getD 1 dummyRow).nes := by
    rw [menrichW]
    rfl
  have hlt := hcl 0 1 (by norm_num) hlen hnes
  have e0 : ((runCtx KW dbW cfgW).motifEnrichment.getD 0 dummyRow).motif = "m4" := by
    rw [menrichW]
    rfl
  have e1 : ((runCtx KW dbW cfgW).motifEnrichment.getD 1 dummyRow).motif = "m3" := by
    rw [menrichW]
    rfl
  rw [e0, e1, runMotifsW] at hlt
  exact absurd hlt (by decide)

/-- C7 amended: the final enrichment table is sorted by NES in
descending order and its motifs are exactly the enriched motifs (a
permutation of the enriched rows); re-running on the same inputs is
deterministic (the pipeline is a function); but ties are NOT broken by
original motif order — pandas' descending sort is the reverse of an
ascending argsort, so equal-NES motifs appear in reverse of their
pre-sort order (see the counterexample). -/
theorem claim_C7_amended_sort_semantics (K : Kernels) (db : CisTargetDB)
    (cfg : CtxConfig) (h : (enrichedFlags K db cfg).count true ≠ 0) :
    List.Sorted (fun a b => b.nes ≤ a.nes) (runCtx K db cfg).motifEnrichment ∧
    ((runCtx K db cfg).motifEnrichment.map fun r => r.motif).Perm
      ((enrichedRows K db cfg).map fun r => r.motif) := by
  constructor
  · rw [runCtx, if_neg h]
    show List.Sorted _ (finalRows K db cfg)
    rw [finalRows]
    have hs := sorted_pandasSortDesc (fun r : EnrichedRow => r.nes)
      (enrichedRows K db cfg)
    exact List.Pairwise.map _ (fun a b hab => hab) hs
  · rw [runCtx, if_neg h]
    show ((finalRows K db cfg).map fun r => r.motif).Perm _
    rw [finalRows, List.map_map]
    exact (perm_pandasSortDesc (fun r : EnrichedRow => r.nes)
      (enrichedRows K db cfg)).map (fun r : EnrichedRow => r.motif)

/-- Witness for C7's amended statement at a concrete input. -/
theorem claim_C7_amended_witness :
    List.Sorted (fun a b => b.nes ≤ a.nes) (runCtx KW dbW cfgW).motifEnrichment ∧
    ((runCtx KW dbW cfgW).motifEnrichment.map fun r => r.motif).Perm
      ((enrichedRows KW dbW cfgW).map fun r => r.motif) :=
  claim_C7_amended_sort_semantics KW dbW cfgW countW_ne

/-- C9: when `region_sets` is supplied but is neither a dict of PyRanges
nor a single PyRanges, `load_db` raises its `ValueError` (the spec's
"TypeError-equivalent") at mapping time: the error is produced for every
possible `load` / `load_full` collaborator, i.e. before any ranking data
is loaded, and for every database content and overlap threshold. -/
theorem claim_C9_invalid_region_sets_error {P : Type}
    (t2q : P → List String → ℝ → List MappingRow)
    (dbLoad : List String → RankMatrix) (loadFull : Unit → RankMatrix)
    (dbGenes : List String) (totalRegions : ℕ) (ty : String) (f : ℝ) :
    loadDb t2q dbLoad loadFull dbGenes totalRegions
        (some (.other ty)) f =
      .error ("region_sets should be either a dict of PyRanges objects or a single PyRanges object, not " ++ ty) :=
  rfl

/-- C10: when every database region key carries the same `<prefix>__`
namespace segment, `load_db` strips the prefix from the vocabulary used
for mapping, re-applies it to the mapped query keys for the database
load, and strips it again from the loaded matrix's columns — so that
prepending the prefix to any returned column key recovers an original
database key exactly.  The two collaborator hypotheses are the
specification contracts: the mapper's `Query` values come from the
supplied vocabulary, and the loaded matrix's columns are exactly the
requested keys. -/
theorem claim_C10_prefix_round_trip {P : Type}
    (t2q : P → List String → ℝ → List MappingRow)
    (dbLoad : List String → RankMatrix) (loadFull : Unit → RankMatrix)
    (dbGenes : List String) (totalRegions : ℕ) (r : P) (f : ℝ) (p : String)
    (hne : dbGenes ≠ [])
    (hsplit : ∀ g ∈ dbGenes, ∃ s, g = p ++ "__" ++ s ∧ pySplitUU g = [p, s])
    (ht2q : ∀ q vocab fo, ∀ row ∈ t2q q vocab fo, row.query ∈ vocab)
    (hload : ∀ keys, (dbLoad keys).cols = keys) :
    ∃ rk, loadDb t2q dbLoad loadFull dbGenes totalRegions
        (some (.ranges r)) f =
        .ok (some (.flat (t2q r (dbGenes.map part1) f)), rk, totalRegions) ∧
      rk.cols = dedupF ((t2q r (dbGenes.map part1) f).map (·.query)) ∧
      rk.rows = (dbLoad ((dedupF ((t2q r (dbGenes.map part1) f).map (·.query))).map
        fun x => p ++ "__" ++ x)).rows ∧
      ∀ c ∈ rk.cols, (p ++ "__" ++ c) ∈ dbGenes ∧ part1 (p ++ "__" ++ c) = c := by
  rcases dbGenes with - | ⟨g0, rest⟩
  · exact absurd rfl hne
  rcases hsplit g0 (List.mem_cons_self g0 rest) with ⟨s0, hg0, hsp0⟩
  have hpfx : stripPrefixInfo (g0 :: rest) =
      (some p, (g0 :: rest).map part1) := by
    rw [stripPrefixInfo]
    rw [if_pos]
    · rw [show part0 ((g0 :: rest).getD 0 "") = p by
        show part0 g0 = p
        rw [part0, hsp0]
        rfl]
    · show pyContainsUU ((g0 :: rest).getD 0 "") = true
      show pyContainsUU g0 = true
      rw [pyContainsUU, hsp0]
      rfl
  -- the key recovery fact: every mapped query key is the stripped form
  -- of an original database key
  have hkey : ∀ c ∈ dedupF ((t2q r ((g0 :: rest).map part1) f).map (·.query)),
      (p ++ "__" ++ c) ∈ (g0 :: rest) ∧ part1 (p ++ "__" ++ c) = c := by
    intro c hc
    rw [mem_dedupF] at hc
    rcases List.mem_map.mp hc with ⟨row, hrow, rfl⟩
    have hvocab := ht2q r ((g0 :: rest).map part1) f row hrow
    rcases List.mem_map.mp hvocab with ⟨g, hg, hgc⟩
    rcases hsplit g hg with ⟨s, hgs, hgsp⟩
    have hp1 : part1 g = s := by
      rw [part1, hgsp]
      rfl
    have hqs : row.query = s := by rw [← hgc, hp1]
    rw [hqs, ← hgs]
    exact ⟨hg, hp1⟩
  refine ⟨finishLoad dbLoad (some p)
    (dedupF ((t2q r ((g0 :: rest).map part1) f).map (·.query))), ?_, ?_, ?_, ?_⟩
  · show (let pinfo := stripPrefixInfo (g0 :: rest); _) = _
    rw [loadDb]
    simp only [hpfx]
  · show ((dbLoad (_)).cols.map part1) = _
    rw [hload]
    rw [List.map_map]
    refine List.map_congr_left ?_ |>.trans (List.map_id _)
    intro c hc
    exact (hkey c hc).2
  · rfl
  · intro c hc
    have hc2 : c ∈ dedupF ((t2q r ((g0 :: rest).map part1) f).map (·.query)) := by
      rw [show finishLoad dbLoad (some p)
          (dedupF ((t2q r ((g0 :: rest).map part1) f).map (·.query))) =
          { cols := (dbLoad ((dedupF ((t2q r ((g0 :: rest).map part1) f).map
              (·.query))).map fun x => p ++ "__" ++ x)).cols.map part1,
            rows := (dbLoad ((dedupF ((t2q r ((g0 :: rest).map part1) f).map
              (·.query))).map fun x => p ++ "__" ++ x)).rows } from rfl] at hc
      rw [hload, List.map_map] at hc
      rcases List.mem_map.mp hc with ⟨c2, hc2m, hc2e⟩
      have := (hkey c2 hc2m).2
      rw [show (part1 ∘ fun x => p ++ "__" ++ x) c2 = part1 (p ++ "__" ++ c2)
        from rfl] at hc2e
      rw [this] at hc2e
      rw [← hc2e]
      exact hc2m
    exact hkey c hc2

/-- Witness for C10: with database keys `["pre__a", "pre__b"]`, a mapper
returning the whole (stripped) vocabulary and a loader echoing the
requested keys, the loaded matrix's columns are the stripped keys and
re-prefixing recovers the original keys. -/
theorem claim_C10_witness :
    (loadDb t2qC dbLoadC loadFullC dbGenesC 2 (some (.ranges ())) 1 =
      .ok (some (.flat (t2qC () (dbGenesC.map part1) 1)),
        { cols := dedupF ((t2qC () (dbGenesC.map part1) 1).map (·.query)),
          rows := (dbLoadC ((dedupF ((t2qC () (dbGenesC.map part1) 1).map
            (·.query))).map fun x => "pre" ++ "__" ++ x)).rows }, 2)) ∧
    ("pre" ++ "__" ++ "a") ∈ dbGenesC ∧ part1 ("pre" ++ "__" ++ "a") = "a" := by
  have hsplit : ∀ g ∈ dbGenesC, ∃ s, g = "pre" ++ "__" ++ s ∧
      pySplitUU g = ["pre", s] := by
    intro g hg
    simp only [dbGenesC, List.mem_cons, List.not_mem_nil, or_false] at hg
    rcases hg with rfl | rfl
    · exact ⟨"a", by decide, by decide⟩
    · exact ⟨"b", by decide, by decide⟩
  have ht2q : ∀ (q : Unit) (vocab : List String) (fo : ℝ),
      ∀ row ∈ t2qC q vocab fo, row.query ∈ vocab := by
    intro q vocab fo row hrow
    rcases List.mem_map.mp hrow with ⟨v, hv, rfl⟩
    exact hv
  obtain ⟨rk, h1, h2, h3, h4⟩ :=
    claim_C10_prefix_round_trip t2qC dbLoadC loadFullC dbGenesC 2 () 1 "pre"
      (by decide) hsplit ht2q (fun keys => rfl)
  rcases rk with ⟨cols, rows⟩
  have h2c : cols = dedupF ((t2qC () (dbGenesC.map part1) 1).map (·.query)) := h2
  have h3c : rows = (dbLoadC ((dedupF ((t2qC () (dbGenesC.map part1) 1).map
      (·.query))).map fun x => "pre" ++ "__" ++ x)).rows := h3
  subst h2c
  subst h3c
  exact ⟨h1, h4 "a" (by decide)⟩

end PyCistarget
